import Mathlib

/-!
Verification development for the bookmark manager (`manager.py`).

The program keeps a parsed HTML bookmark document (`self.soup`) and offers:
loading, a multi-threaded validity checker (`check_bookmark_validity`),
duplicate detection (`find_duplicate_bookmarks`), age-based removal
(`remove_old_bookmarks`), saving (`save_bookmarks`), plus confirmation
dialogs before each destructive removal.

The document is embedded as a forest of nodes: folder headings (`h3`),
bookmark anchors (`a`, carrying text, optional `href` and optional
`add_date`), and nesting blocks (`dl`) holding an ordered child forest.
This mirrors exactly the structure `manager.py` inspects: `find_all("a")`,
`find_all("h3")`, `find_all("dl")`, parent walks stopping at `dl`
ancestors, and `find_previous_sibling("h3")`.
-/

namespace BookmarkMgr

/-- Data carried by one `<a>` tag: an identity (the object identity of the
tag, the thing `decompose` acts on), its display text, its `href` attribute
(absent when `a_tag.get("href")` returns `None`) and its `add_date`
attribute. -/
structure LinkData where
  id : Nat
  text : String
  href : Option String
  add_date : Option String
deriving DecidableEq, Repr

/-- Python's `str.strip()`: drop leading and trailing whitespace. Written
over the character list so that it evaluates by kernel reduction. -/
def pyStrip (s : String) : String :=
  String.mk (((s.data.dropWhile Char.isWhitespace).reverse.dropWhile
    Char.isWhitespace).reverse)

mutual
/-- One node of the parsed document: a folder heading `<h3>`, a bookmark
anchor `<a>`, or a `<dl>` block with an ordered child forest. -/
inductive Node where
  | h3 : String → Node
  | link : LinkData → Node
  | dl : Forest → Node

/-- An ordered sibling list of document nodes. -/
inductive Forest where
  | nil : Forest
  | cons : Node → Forest → Forest
end

/-- Build a forest from an explicit sibling list. -/
def ofList : List Node → Forest
  | [] => Forest.nil
  | n :: rest => Forest.cons n (ofList rest)

/-- Structural induction over a forest, descending both into tails and
into the children of `dl` blocks. -/
theorem forest_induction {P : Forest → Prop} (h0 : P Forest.nil)
    (hh3 : ∀ s rest, P rest → P (Forest.cons (Node.h3 s) rest))
    (hlink : ∀ d rest, P rest → P (Forest.cons (Node.link d) rest))
    (hdl : ∀ cs rest, P cs → P rest → P (Forest.cons (Node.dl cs) rest)) :
    ∀ t, P t
  | Forest.nil => h0
  | Forest.cons (Node.h3 s) rest =>
      hh3 s rest (forest_induction h0 hh3 hlink hdl rest)
  | Forest.cons (Node.link d) rest =>
      hlink d rest (forest_induction h0 hh3 hlink hdl rest)
  | Forest.cons (Node.dl cs) rest =>
      hdl cs rest (forest_induction h0 hh3 hlink hdl cs)
        (forest_induction h0 hh3 hlink hdl rest)

/-- All `<a>` tags of the document in document order, as produced by
`soup.find_all("a")`. -/
def collectLinks : Forest → List LinkData
  | Forest.nil => []
  | Forest.cons (Node.h3 _) rest => collectLinks rest
  | Forest.cons (Node.link d) rest => d :: collectLinks rest
  | Forest.cons (Node.dl cs) rest => collectLinks cs ++ collectLinks rest

/-- `a_tag.decompose()`: detach the anchor with identity `j` from the tree.
An identity not present in the tree is simply not found, so the call is a
no-op on the document. -/
def removeLink (j : Nat) : Forest → Forest
  | Forest.nil => Forest.nil
  | Forest.cons (Node.h3 s) rest => Forest.cons (Node.h3 s) (removeLink j rest)
  | Forest.cons (Node.link d) rest =>
      if d.id = j then removeLink j rest
      else Forest.cons (Node.link d) (removeLink j rest)
  | Forest.cons (Node.dl cs) rest =>
      Forest.cons (Node.dl (removeLink j cs)) (removeLink j rest)

/-- Sequential application of `decompose` over a candidate list, as the
deletion loops in `ask_delete_invalid_bookmarks`, `find_duplicate_bookmarks`
and `remove_old_bookmarks` do. -/
def removeAll (js : List Nat) (t : Forest) : Forest :=
  js.foldl (fun acc j => removeLink j acc) t

/-- Core of `get_bookmark_path`: the Python code walks from the anchor up
through its ancestors; at every `dl` ancestor it records the text
(stripped) of the nearest previous `<h3>` sibling, then reverses the
collected names. Equivalently, scanning the document top-down:
`pathGo i path last t` scans the sibling list `t`, where `path` is the
(root-first) folder path of the enclosing block and `last` is the nearest
`<h3>` already seen at this level; entering a `dl` extends the path with
`last` when present. Returns the folder path of the anchor with identity
`i`, or `none` when that anchor is absent. -/
def pathGo (i : Nat) : List String → Option String → Forest → Option (List String)
  | _, _, Forest.nil => none
  | path, _, Forest.cons (Node.h3 s) rest => pathGo i path (some (pyStrip s)) rest
  | path, last, Forest.cons (Node.link d) rest =>
      if d.id = i then some path else pathGo i path last rest
  | path, last, Forest.cons (Node.dl cs) rest =>
      match pathGo i (path ++ last.toList) none cs with
      | some p => some p
      | none => pathGo i path last rest

/-- `get_bookmark_path`: resolved folder path (root-first) of the anchor
with identity `i` in document `t`. -/
def get_bookmark_path (t : Forest) (i : Nat) : Option (List String) :=
  pathGo i [] none t

example :
    get_bookmark_path
      (ofList [Node.h3 " Dev ",
        Node.dl (ofList [Node.link ⟨1, "Repo", some "http://x.test/404", none⟩]),
        Node.h3 "Docs",
        Node.dl (ofList [Node.link ⟨2, "Repo", some "http://x.test/404", none⟩])]) 2
      = some ["Docs"] := by decide

example :
    collectLinks
      (ofList [Node.h3 "A",
        Node.dl (ofList [Node.link ⟨1, "a", none, none⟩,
          Node.dl (ofList [Node.link ⟨2, "b", none, none⟩])]),
        Node.link ⟨3, "c", none, none⟩])
      = [⟨1, "a", none, none⟩, ⟨2, "b", none, none⟩, ⟨3, "c", none, none⟩] := by decide

theorem removeAll_nil (t : Forest) : removeAll [] t = t := rfl

theorem removeAll_cons (a : Nat) (js : List Nat) (t : Forest) :
    removeAll (a :: js) t = removeAll js (removeLink a t) := rfl

theorem removeLink_link (j : Nat) (d : LinkData) (rest : Forest) :
    removeLink j (Forest.cons (Node.link d) rest)
      = if d.id = j then removeLink j rest
        else Forest.cons (Node.link d) (removeLink j rest) := rfl

theorem pathGo_link (i : Nat) (path : List String) (last : Option String)
    (d : LinkData) (rest : Forest) :
    pathGo i path last (Forest.cons (Node.link d) rest)
      = if d.id = i then some path else pathGo i path last rest := rfl

theorem pathGo_removeLink (i j : Nat) (hij : i ≠ j) (t : Forest) :
    ∀ path last, pathGo i path last (removeLink j t) = pathGo i path last t := by
  induction t using forest_induction with
  | h0 => intro path last; rfl
  | hh3 s rest ih => intro path last; simp [removeLink, pathGo, ih]
  | hlink d rest ih =>
      intro path last
      rw [removeLink_link]
      by_cases hd : d.id = j
      · have hdi : ¬ d.id = i := fun hh => hij (hh ▸ hd)
        rw [if_pos hd, ih, pathGo_link, if_neg hdi]
      · rw [if_neg hd, pathGo_link, pathGo_link]
        by_cases hdi : d.id = i
        · rw [if_pos hdi, if_pos hdi]
        · rw [if_neg hdi, if_neg hdi, ih]
  | hdl cs rest ihcs ihrest =>
      intro path last
      simp [removeLink, pathGo, ihcs, ihrest]

theorem removeLink_idem (j : Nat) (t : Forest) :
    removeLink j (removeLink j t) = removeLink j t := by
  induction t using forest_induction with
  | h0 => rfl
  | hh3 s rest ih => simp [removeLink, ih]
  | hlink d rest ih =>
      by_cases hd : d.id = j
      · simp [removeLink, hd, ih]
      · simp [removeLink, hd, ih]
  | hdl cs rest ihcs ihrest => simp [removeLink, ihcs, ihrest]

theorem removeLink_comm (a b : Nat) (t : Forest) :
    removeLink a (removeLink b t) = removeLink b (removeLink a t) := by
  induction t using forest_induction with
  | h0 => rfl
  | hh3 s rest ih => simp [removeLink, ih]
  | hlink d rest ih =>
      rw [removeLink_link b d rest, removeLink_link a d rest]
      by_cases ha : d.id = a <;> by_cases hb : d.id = b
      · rw [if_pos hb, if_pos ha, ih]
      · rw [if_neg hb, if_pos ha, removeLink_link a d (removeLink b rest),
          if_pos ha, ih]
      · rw [if_pos hb, if_neg ha, removeLink_link b d (removeLink a rest),
          if_pos hb, ih]
      · rw [if_neg hb, if_neg ha, removeLink_link a d (removeLink b rest),
          if_neg ha, removeLink_link b d (removeLink a rest), if_neg hb, ih]
  | hdl cs rest ihcs ihrest => simp [removeLink, ihcs, ihrest]

theorem removeAll_removeLink (js : List Nat) (j : Nat) (t : Forest) :
    removeAll js (removeLink j t) = removeLink j (removeAll js t) := by
  induction js generalizing t with
  | nil => rfl
  | cons a js ih =>
      rw [removeAll_cons, removeLink_comm a j t, ih, removeAll_cons]

theorem removeAll_idem (js : List Nat) (t : Forest) :
    removeAll js (removeAll js t) = removeAll js t := by
  induction js generalizing t with
  | nil => rfl
  | cons a js ih =>
      rw [removeAll_cons a js t,
        removeAll_cons a js (removeAll js (removeLink a t)),
        ← removeAll_removeLink js a (removeLink a t),
        removeLink_idem a t]
      exact ih (removeLink a t)

theorem removeLink_not_mem (j : Nat) (t : Forest)
    (h : j ∉ (collectLinks t).map LinkData.id) : removeLink j t = t := by
  induction t using forest_induction with
  | h0 => rfl
  | hh3 s rest ih =>
      simp only [collectLinks] at h
      simp [removeLink, ih h]
  | hlink d rest ih =>
      simp only [collectLinks, List.map_cons, List.mem_cons, not_or] at h
      have hd : ¬ d.id = j := fun hh => h.1 hh.symm
      simp [removeLink, hd, ih h.2]
  | hdl cs rest ihcs ihrest =>
      simp only [collectLinks, List.map_append, List.mem_append, not_or] at h
      simp [removeLink, ihcs h.1, ihrest h.2]

theorem collectLinks_removeLink (j : Nat) (t : Forest) :
    collectLinks (removeLink j t)
      = (collectLinks t).filter (fun d => d.id ≠ j) := by
  induction t using forest_induction with
  | h0 => rfl
  | hh3 s rest ih => simp [removeLink, collectLinks, ih]
  | hlink d rest ih =>
      by_cases hd : d.id = j
      · simp [removeLink, hd, collectLinks, ih, List.filter_cons]
      · simp [removeLink, hd, collectLinks, ih, List.filter_cons]
  | hdl cs rest ihcs ihrest =>
      simp [removeLink, collectLinks, ihcs, ihrest, List.filter_append]

theorem collectLinks_removeAll (js : List Nat) (t : Forest) :
    collectLinks (removeAll js t)
      = (collectLinks t).filter (fun d => d.id ∉ js) := by
  induction js generalizing t with
  | nil => simp [removeAll]
  | cons a js ih =>
      rw [removeAll_cons, ih, collectLinks_removeLink, List.filter_filter]
      apply List.filter_congr
      intro x hx
      simp [List.mem_cons, not_or, Bool.and_comm]

/-- A small concrete document: folder "A" with two links, folder "B" with
one. -/
def docA : Forest :=
  ofList [Node.h3 "A",
    Node.dl (ofList [Node.link ⟨1, "x", some "http://x.test", none⟩,
      Node.link ⟨2, "y", some "http://y.test", none⟩]),
    Node.h3 "B",
    Node.dl (ofList [Node.link ⟨3, "z", some "http://z.test", none⟩])]

/-- C8: node removal is idempotent: removing an already-detached node (one
whose identity no longer occurs in the tree) is a no-op rather than an
error, and invoking the removal step twice with the same candidate set
yields the same final tree as invoking it once. -/
theorem removal_idempotent_spec :
    (∀ (c : List Nat) (t : Forest), removeAll c (removeAll c t) = removeAll c t) ∧
    (∀ (j : Nat) (t : Forest),
        j ∉ (collectLinks t).map LinkData.id → removeLink j t = t) :=
  ⟨fun c t => removeAll_idem c t, fun j t h => removeLink_not_mem j t h⟩

theorem removal_idempotent_spec_witness :
    (9 ∉ (collectLinks docA).map LinkData.id) ∧
    (removeAll [2] (removeAll [2] docA) = removeAll [2] docA ∧
      removeLink 9 docA = docA) :=
  ⟨by decide,
    removal_idempotent_spec.1 [2] docA,
    removal_idempotent_spec.2 9 docA (by decide)⟩

/-- C9: resolving a link's path before and after the removal of a
different link elsewhere in the document yields identical results: path
resolution depends only on the link's own ancestor chain and the folder
headings preceding those ancestors, never on removed siblings. -/
theorem resolve_path_frame (t : Forest) (i j : Nat) (h : i ≠ j) :
    get_bookmark_path (removeLink j t) i = get_bookmark_path t i :=
  pathGo_removeLink i j h t [] none

theorem resolve_path_frame_witness :
    ((1 : Nat) ≠ 3) ∧
    get_bookmark_path (removeLink 3 docA) 1 = get_bookmark_path docA 1 :=
  ⟨by decide, resolve_path_frame docA 1 3 (by decide)⟩

/-! ## The validity checker's probe and aggregation -/

/-- Outcome of one `requests.head(href, timeout=5)` call as the worker sees
it: either the probe completes with a status code, or it raises (timeout,
connection failure, malformed or missing URL). The fixed 5-second timeout
lives inside the probe provider. -/
inductive ProbeOutcome where
  | status : Nat → ProbeOutcome
  | failure : ProbeOutcome
deriving DecidableEq, Repr

/-- Verdict recorded for one link. -/
inductive Classification where
  | valid
  | invalid
deriving DecidableEq, Repr

/-- The worker's verdict: `response.status_code < 400` counts as valid;
everything else, including any raised error (absorbed by the worker's bare
`except`), counts as invalid. -/
def classify_probe : ProbeOutcome → Classification
  | ProbeOutcome.status c =>
      if c < 400 then Classification.valid else Classification.invalid
  | ProbeOutcome.failure => Classification.invalid

/-- `requests.head(href, timeout=5)` where `href = a_tag.get("href")` may
be absent: `requests.head(None, ...)` raises, which the worker's `except`
absorbs; a present URL is probed through the network environment `net`. -/
def probe_of (net : String → ProbeOutcome) : Option String → ProbeOutcome
  | none => ProbeOutcome.failure
  | some u => net u

/-- Aggregate state maintained by the checker: the three counters and the
`self.invalid_bookmarks` list (pending is displayed as `total - checked`). -/
structure CheckState where
  checked : Nat
  valid : Nat
  invalid : Nat
  invalid_bookmarks : List (LinkData × String)
deriving DecidableEq, Repr

/-- Effect of one loop iteration of `worker` on the aggregate state, for
the work item `(a_tag, path)`: probe, classify, bump the class counter
(recording invalid links), bump `checked`. -/
def worker_process (net : String → ProbeOutcome) (s : CheckState)
    (item : LinkData × String) : CheckState :=
  match classify_probe (probe_of net item.1.href) with
  | Classification.valid =>
      { s with checked := s.checked + 1, valid := s.valid + 1 }
  | Classification.invalid =>
      { s with
        checked := s.checked + 1,
        invalid := s.invalid + 1,
        invalid_bookmarks := s.invalid_bookmarks ++ [item] }

/-- One complete checker run over the collected work items, starting from
zeroed counters, processing every item exactly once. -/
def run_check (net : String → ProbeOutcome)
    (items : List (LinkData × String)) : CheckState :=
  items.foldl (worker_process net) ⟨0, 0, 0, []⟩

theorem worker_process_checked (net : String → ProbeOutcome) (s : CheckState)
    (item : LinkData × String) :
    (worker_process net s item).checked = s.checked + 1 := by
  unfold worker_process
  cases classify_probe (probe_of net item.1.href) <;> rfl

theorem run_foldl_checked (net : String → ProbeOutcome)
    (items : List (LinkData × String)) :
    ∀ s : CheckState,
      (items.foldl (worker_process net) s).checked = s.checked + items.length := by
  induction items with
  | nil => intro s; simp
  | cons it items ih =>
      intro s
      rw [List.foldl_cons, ih, worker_process_checked, List.length_cons]
      omega

theorem run_foldl_invalid_mem (net : String → ProbeOutcome)
    (items : List (LinkData × String)) :
    ∀ (s : CheckState) (x : LinkData × String), x ∈ s.invalid_bookmarks →
      x ∈ (items.foldl (worker_process net) s).invalid_bookmarks := by
  induction items with
  | nil => intro s x hx; exact hx
  | cons it items ih =>
      intro s x hx
      rw [List.foldl_cons]
      apply ih
      unfold worker_process
      cases classify_probe (probe_of net it.1.href)
      · exact hx
      · exact List.mem_append_left _ hx

theorem worker_process_none_mem (net : String → ProbeOutcome) (s : CheckState)
    (item : LinkData × String) (h : item.1.href = none) :
    item ∈ (worker_process net s item).invalid_bookmarks := by
  have hp : probe_of net item.1.href = ProbeOutcome.failure := by
    rw [h]
    rfl
  unfold worker_process
  rw [hp]
  simp [classify_probe]

theorem run_foldl_mem_none (net : String → ProbeOutcome) :
    ∀ (items : List (LinkData × String)) (s : CheckState)
      (item : LinkData × String), item ∈ items → item.1.href = none →
      item ∈ (items.foldl (worker_process net) s).invalid_bookmarks := by
  intro items
  induction items with
  | nil => intro s item h; exact absurd h (List.not_mem_nil item)
  | cons it items ih =>
      intro s item hmem hhref
      rw [List.foldl_cons]
      rcases List.mem_cons.mp hmem with h | h
      · subst h
        exact run_foldl_invalid_mem net items _ item
          (worker_process_none_mem net s item hhref)
      · exact ih _ item h hhref

/-- C10: a link whose `href` attribute is absent is classified invalid by
the checker (the probe on the missing URL raises and the `except` absorbs
it), recorded in the invalid list, and still counted in `checked`; the run
completes. -/
theorem missing_href_invalid_spec (net : String → ProbeOutcome)
    (items : List (LinkData × String)) (item : LinkData × String)
    (hmem : item ∈ items) (hhref : item.1.href = none) :
    item ∈ (run_check net items).invalid_bookmarks ∧
      (run_check net items).checked = items.length := by
  constructor
  · exact run_foldl_mem_none net items ⟨0, 0, 0, []⟩ item hmem hhref
  · unfold run_check
    rw [run_foldl_checked]
    simp

/-- Network environment answering every probe with status 200. -/
def netAllOk : String → ProbeOutcome := fun _ => ProbeOutcome.status 200

/-- A work item whose anchor has no `href` attribute. -/
def itemB : LinkData × String := (⟨2, "nohref", none, none⟩, "B")

def itemsW : List (LinkData × String) :=
  [(⟨1, "ok", some "http://a.test", none⟩, "A"),
   itemB,
   (⟨3, "ok2", some "http://c.test", none⟩, "C")]

theorem missing_href_invalid_spec_witness :
    (itemB ∈ itemsW ∧ itemB.1.href = none) ∧
    (itemB ∈ (run_check netAllOk itemsW).invalid_bookmarks ∧
      (run_check netAllOk itemsW).checked = itemsW.length) :=
  ⟨⟨by decide, rfl⟩,
    missing_href_invalid_spec netAllOk itemsW itemB (by decide) rfl⟩

/-- C2: a probed link is valid iff the HEAD probe completes and returns a
status code below 400; every other outcome is classified invalid and
recorded, and the worker continues (its step is a total function on the
aggregate state: no probe outcome aborts the batch, `checked` always
advances). -/
theorem probe_classification_spec :
    (∀ o : ProbeOutcome, classify_probe o = Classification.valid ↔
        ∃ c, o = ProbeOutcome.status c ∧ c < 400) ∧
    (∀ (net : String → ProbeOutcome) (s : CheckState) (item : LinkData × String),
        (worker_process net s item).checked = s.checked + 1) ∧
    (∀ (net : String → ProbeOutcome) (s : CheckState) (item : LinkData × String),
        classify_probe (probe_of net item.1.href) = Classification.invalid →
          (worker_process net s item).invalid = s.invalid + 1 ∧
          item ∈ (worker_process net s item).invalid_bookmarks) := by
  refine ⟨?_, worker_process_checked, ?_⟩
  · intro o
    cases o with
    | status c =>
        by_cases hc : c < 400
        · simp [classify_probe, hc]
        · simp [classify_probe, hc]
    | failure => simp [classify_probe]
  · intro net s item h
    unfold worker_process
    rw [h]
    simp

/-- Network environment answering every probe with status 404. -/
def net404 : String → ProbeOutcome := fun _ => ProbeOutcome.status 404

def cs0 : CheckState := ⟨0, 0, 0, []⟩

def item404 : LinkData × String := (⟨7, "bad", some "http://bad.test", none⟩, "A")

theorem probe_classification_spec_witness :
    classify_probe (probe_of net404 item404.1.href) = Classification.invalid ∧
    ((worker_process net404 cs0 item404).invalid = cs0.invalid + 1 ∧
      item404 ∈ (worker_process net404 cs0 item404).invalid_bookmarks) :=
  ⟨rfl, probe_classification_spec.2.2 net404 cs0 item404 rfl⟩

/-! ## Manager state, guards, age filter, saving, confirmation summaries -/

/-- User-visible result of invoking one of the manager's entry points. -/
inductive OpResult where
  | busy
  | noFile
  | raised
  | ok
deriving DecidableEq, Repr

/-- The manager's shared state: the `is_running` flag, the loaded document
(`self.soup`) and the invalid-bookmarks list. -/
structure MgrState where
  is_running : Bool
  soup : Option Forest
  invalid_bookmarks : List (LinkData × String)

/-- Guard prologue of `check_bookmark_validity`: refuse with a busy
warning while a run is active; require a loaded document; otherwise set
the flag and reset the invalid list before dispatching workers. -/
def check_bookmark_validity_entry (s : MgrState) : OpResult × MgrState :=
  if s.is_running then (OpResult.busy, s)
  else
    match s.soup with
    | none => (OpResult.noFile, s)
    | some _ =>
        (OpResult.ok, { s with is_running := true, invalid_bookmarks := [] })

/-- Guard prologue of `find_duplicate_bookmarks`: same busy guard and
loaded-document requirement, then the flag is set for the synchronous
scan. -/
def find_duplicate_bookmarks_entry (s : MgrState) : OpResult × MgrState :=
  if s.is_running then (OpResult.busy, s)
  else
    match s.soup with
    | none => (OpResult.noFile, s)
    | some _ => (OpResult.ok, { s with is_running := true })

/-- Parse a nonempty all-digit character list as a decimal number. -/
def parseDigits : List Char → Option Nat
  | [] => none
  | cs =>
      if cs.all Char.isDigit then
        some (cs.foldl (fun acc c => acc * 10 + (c.toNat - 48)) 0)
      else none

/-- Python's `int(str)`: surrounding whitespace allowed, optional sign,
decimal digits; anything else raises `ValueError` (modelled as `none`). -/
def pyInt (s : String) : Option Int :=
  match (pyStrip s).data with
  | '-' :: rest => (parseDigits rest).map (fun n => -(n : Int))
  | '+' :: rest => (parseDigits rest).map (fun n => (n : Int))
  | t => (parseDigits t).map (fun n => (n : Int))

/-- Seconds in the 180-day retention window (`timedelta(days=180)`). -/
def retentionWindow : Int := 180 * 86400

/-- Selection test of `remove_old_bookmarks` on one link: the `add_date`
attribute is truthy (present and nonempty) and parses to a timestamp
earlier than `now - 180 days`. An unparseable value yields `false` here;
the collection loop below is where the raised `ValueError` shows up. -/
def isOld (now : Int) (d : LinkData) : Bool :=
  match d.add_date with
  | none => false
  | some s =>
      if s = "" then false
      else
        match pyInt s with
        | none => false
        | some ts => decide (ts < now - retentionWindow)

/-- The collection loop of `remove_old_bookmarks` over the document's
links: a falsy (absent or empty) `add_date` is skipped by the truthiness
test; a truthy one is fed to `int(...)`, whose failure raises `ValueError`
out of the loop; a parsed timestamp older than the cutoff selects the
link. -/
def remove_old_collect (now : Int) : List LinkData → Except String (List LinkData)
  | [] => Except.ok []
  | d :: rest =>
      match d.add_date with
      | none => remove_old_collect now rest
      | some s =>
          if s = "" then remove_old_collect now rest
          else
            match pyInt s with
            | none => Except.error "ValueError"
            | some ts =>
                if ts < now - retentionWindow then
                  (remove_old_collect now rest).map (fun l => d :: l)
                else remove_old_collect now rest

theorem remove_old_collect_ok (now : Int) :
    ∀ (links sel : List LinkData),
      remove_old_collect now links = Except.ok sel →
      sel = links.filter (isOld now) := by
  intro links
  induction links with
  | nil =>
      intro sel h
      simp only [remove_old_collect, Except.ok.injEq] at h
      simp [h.symm]
  | cons d rest ih =>
      intro sel h
      cases hd : d.add_date with
      | none =>
          simp only [remove_old_collect, hd] at h
          simp [List.filter_cons, isOld, hd, ih sel h]
      | some s =>
          by_cases hs : s = ""
          · simp only [remove_old_collect, hd, if_pos hs] at h
            simp [List.filter_cons, isOld, hd, hs, ih sel h]
          · cases hp : pyInt s with
            | none =>
                simp only [remove_old_collect, hd, if_neg hs, hp] at h
                simp at h
            | some ts =>
                by_cases ht : ts < now - retentionWindow
                · simp only [remove_old_collect, hd, if_neg hs, hp,
                    if_pos ht] at h
                  cases hr : remove_old_collect now rest with
                  | error e => rw [hr] at h; simp [Except.map] at h
                  | ok l =>
                      rw [hr] at h
                      simp only [Except.map, Except.ok.injEq] at h
                      rw [List.filter_cons]
                      have hold : isOld now d = true := by
                        simp [isOld, hd, hs, hp, ht]
                      rw [hold]
                      simp [h.symm, ih l hr]
                · simp only [remove_old_collect, hd, if_neg hs, hp,
                    if_neg ht] at h
                  have hold : isOld now d = false := by
                    simp [isOld, hd, hs, hp, ht]
                  rw [List.filter_cons, hold]
                  simp [ih sel h]

/-- C7 counterexample: a link whose `add_date` is present but unparseable
("abc") makes the age scan raise `ValueError` (the uncaught `int(...)`
failure) instead of being silently skipped as the claim states. -/
theorem age_filter_unparseable_cex :
    remove_old_collect 20000000
      [⟨4, "old", some "http://o.test", some "abc"⟩]
      = Except.error "ValueError" := rfl

/-- C7 amended: the age filter selects exactly the links whose truthy
`add_date` parses to a timestamp older than 180 days before evaluation
time; links with absent (or empty) timestamps are silently skipped and
never selected; a link with a nonempty unparseable timestamp raises a
`ValueError` that aborts the scan (see the counterexample). -/
theorem age_filter_amended :
    (∀ (now : Int) (links sel : List LinkData),
        remove_old_collect now links = Except.ok sel →
        sel = links.filter (isOld now)) ∧
    (∀ (now : Int) (d : LinkData), d.add_date = none → isOld now d = false) := by
  refine ⟨remove_old_collect_ok, ?_⟩
  intro now d h
  simp [isOld, h]

def oldLink : LinkData := ⟨5, "old2", some "http://p.test", some "100"⟩

def newLink : LinkData := ⟨6, "new", some "http://q.test", none⟩

theorem age_filter_amended_witness :
    (remove_old_collect 20000000 [oldLink, newLink] = Except.ok [oldLink] ∧
      [oldLink] = [oldLink, newLink].filter (isOld 20000000)) ∧
    (newLink.add_date = none ∧ isOld 20000000 newLink = false) :=
  ⟨⟨rfl, age_filter_amended.1 20000000 [oldLink, newLink] [oldLink] rfl⟩,
    ⟨rfl, age_filter_amended.2 20000000 newLink rfl⟩⟩

/-- `remove_old_bookmarks`: requires only a loaded document — the
`is_running` flag is not consulted. Collects the old bookmarks, asks for
confirmation (`answer`), and decomposes them on yes. A `ValueError`
raised by `int(add_date)` escapes the method. -/
def remove_old_bookmarks_m (now : Int) (answer : Bool) (s : MgrState) :
    OpResult × MgrState :=
  match s.soup with
  | none => (OpResult.noFile, s)
  | some t =>
      match remove_old_collect now (collectLinks t) with
      | Except.error _ => (OpResult.raised, s)
      | Except.ok [] => (OpResult.ok, s)
      | Except.ok (d :: old) =>
          if answer then
            (OpResult.ok,
              { s with soup := some (removeAll ((d :: old).map LinkData.id) t) })
          else (OpResult.ok, s)

/-- All `<h3>` headings of the document (`soup.find_all("h3")`). -/
def collectH3 : Forest → List String
  | Forest.nil => []
  | Forest.cons (Node.h3 s) rest => s :: collectH3 rest
  | Forest.cons (Node.link _) rest => collectH3 rest
  | Forest.cons (Node.dl cs) rest => collectH3 cs ++ collectH3 rest

/-- Number of `<dl>` blocks of the document (`soup.find_all("dl")`). -/
def countDl : Forest → Nat
  | Forest.nil => 0
  | Forest.cons (Node.h3 _) rest => countDl rest
  | Forest.cons (Node.link _) rest => countDl rest
  | Forest.cons (Node.dl cs) rest => 1 + countDl cs + countDl rest

/-- Result of `save_bookmarks`. -/
inductive SaveOutcome where
  | noFile
  | aborted
  | saved : Forest → SaveOutcome

/-- `save_bookmarks`: requires only a loaded document (the `is_running`
flag is not consulted); a document with no `<h3>` headings or no `<dl>`
blocks triggers a structural warning that must be confirmed; otherwise
the in-memory document is written out unchanged. -/
def save_bookmarks_m (confirm : Bool) (s : MgrState) : SaveOutcome :=
  match s.soup with
  | none => SaveOutcome.noFile
  | some t =>
      if (collectH3 t).isEmpty ∨ countDl t = 0 then
        if confirm then SaveOutcome.saved t else SaveOutcome.aborted
      else SaveOutcome.saved t

/-- C4: starting the validity checker while a run is already active
returns the busy warning and changes nothing: the whole manager state —
flag, invalid-bookmarks list and loaded document — is returned intact, and
no run is started. -/
theorem busy_guard_spec (s : MgrState) (h : s.is_running = true) :
    check_bookmark_validity_entry s = (OpResult.busy, s) := by
  unfold check_bookmark_validity_entry
  rw [h]
  simp

def sBusy : MgrState := ⟨true, some docA, []⟩

theorem busy_guard_spec_witness :
    sBusy.is_running = true ∧
      check_bookmark_validity_entry sBusy = (OpResult.busy, sBusy) :=
  ⟨rfl, busy_guard_spec sBusy rfl⟩

def docOld : Forest := ofList [Node.h3 "Old", Node.dl (ofList [Node.link oldLink])]

def sBusyOld : MgrState := ⟨true, some docOld, []⟩

/-- C6 counterexample: with the run-active flag set, `remove_old_bookmarks`
is not rejected: it runs to completion and mutates the loaded document
(its link set goes from one link to none), where the claim says any
mutating operation is rejected without touching the tree while the flag is
set. -/
theorem remove_old_ungated_cex :
    sBusyOld.is_running = true ∧
    (remove_old_bookmarks_m 20000000 true sBusyOld).1 = OpResult.ok ∧
    Option.map collectLinks (remove_old_bookmarks_m 20000000 true sBusyOld).2.soup
      = some [] ∧
    Option.map collectLinks sBusyOld.soup = some [oldLink] :=
  ⟨rfl, rfl, rfl, rfl⟩

/-- C6 amended: the scan starters (`check_bookmark_validity`,
`find_duplicate_bookmarks`) are gated by the run-active flag, but
`remove_old_bookmarks` and `save_bookmarks` are not: they test only that a
document is loaded and behave identically whether or not the flag is
set. -/
theorem mutation_gating_amended :
    (∀ s : MgrState, s.is_running = true →
        check_bookmark_validity_entry s = (OpResult.busy, s) ∧
        find_duplicate_bookmarks_entry s = (OpResult.busy, s)) ∧
    (∀ (now : Int) (answer : Bool) (soup : Option Forest)
        (inv : List (LinkData × String)) (b1 b2 : Bool),
        (remove_old_bookmarks_m now answer ⟨b1, soup, inv⟩).1
          = (remove_old_bookmarks_m now answer ⟨b2, soup, inv⟩).1 ∧
        (remove_old_bookmarks_m now answer ⟨b1, soup, inv⟩).2.soup
          = (remove_old_bookmarks_m now answer ⟨b2, soup, inv⟩).2.soup) ∧
    (∀ (confirm : Bool) (soup : Option Forest)
        (inv : List (LinkData × String)) (b1 b2 : Bool),
        save_bookmarks_m confirm ⟨b1, soup, inv⟩
          = save_bookmarks_m confirm ⟨b2, soup, inv⟩) := by
  refine ⟨?_, ?_, ?_⟩
  · intro s h
    constructor
    · unfold check_bookmark_validity_entry
      rw [h]
      simp
    · unfold find_duplicate_bookmarks_entry
      rw [h]
      simp
  · intro now answer soup inv b1 b2
    cases soup with
    | none => exact ⟨rfl, rfl⟩
    | some t =>
        simp only [remove_old_bookmarks_m]
        cases remove_old_collect now (collectLinks t) with
        | error e => exact ⟨rfl, rfl⟩
        | ok l =>
            cases l with
            | nil => exact ⟨rfl, rfl⟩
            | cons d ds => cases answer <;> exact ⟨rfl, rfl⟩
  · intro confirm soup inv b1 b2
    cases soup with
    | none => rfl
    | some t => rfl

theorem mutation_gating_amended_witness :
    (sBusyOld.is_running = true ∧
      (check_bookmark_validity_entry sBusyOld = (OpResult.busy, sBusyOld) ∧
        find_duplicate_bookmarks_entry sBusyOld = (OpResult.busy, sBusyOld))) ∧
    ((remove_old_bookmarks_m 20000000 true ⟨true, some docOld, []⟩).1
        = (remove_old_bookmarks_m 20000000 true ⟨false, some docOld, []⟩).1 ∧
      (remove_old_bookmarks_m 20000000 true ⟨true, some docOld, []⟩).2.soup
        = (remove_old_bookmarks_m 20000000 true ⟨false, some docOld, []⟩).2.soup) ∧
    save_bookmarks_m true ⟨true, some docOld, []⟩
      = save_bookmarks_m true ⟨false, some docOld, []⟩ :=
  ⟨⟨rfl, mutation_gating_amended.1 sBusyOld rfl⟩,
    mutation_gating_amended.2.1 20000000 true (some docOld) [] true false,
    mutation_gating_amended.2.2 true (some docOld) [] true false⟩

/-! ## Duplicate resolver and confirmation summaries -/

/-- Grouping key of `find_duplicate_bookmarks`: the pair
`(a_tag.text.strip(), a_tag.get("href"))` — display text trimmed, URL
exactly as written (no case or slash normalization). -/
def dupKey (d : LinkData) : String × Option String := (pyStrip d.text, d.href)

/-- First-occurrence-ordered list of the distinct grouping keys, as the
insertion order of the `defaultdict` during the document-order traversal. -/
def dedupKeys (links : List LinkData) : List (String × Option String) :=
  links.foldl (fun acc d => if dupKey d ∈ acc then acc else acc ++ [dupKey d]) []

/-- Grouping phase of `find_duplicate_bookmarks`: group all links of the
whole tree (irrespective of folder) by key, each group in document order,
and report the groups with more than one member. -/
def find_duplicate_groups (links : List LinkData) :
    List ((String × Option String) × List LinkData) :=
  (dedupKeys links).filterMap (fun k =>
    if 1 < (links.filter (fun d => dupKey d = k)).length then
      some (k, links.filter (fun d => dupKey d = k))
    else none)

/-- Per-group deletion step of `find_duplicate_bookmarks`: on yes keep the
first member and decompose the rest (`tags_with_paths[1:]`); on no keep
all. -/
def confirm_duplicate_group (answer : Bool) (t : Forest) (g : List LinkData) :
    Forest :=
  if answer then removeAll ((g.drop 1).map LinkData.id) t else t

/-- Deletion step of `ask_delete_invalid_bookmarks`: on yes decompose every
recorded invalid bookmark; on no do nothing. -/
def ask_delete_invalid_bookmarks_m (answer : Bool) (t : Forest)
    (inv : List (LinkData × String)) : Forest :=
  if answer then removeAll (inv.map (fun p => p.1.id)) t else t

/-- Confirmation summary: the "- Location:" lines shown to the user plus
an optional "... and N more" overflow count. -/
structure Summary where
  listed : List String
  overflow : Option Nat
deriving DecidableEq, Repr

/-- Summary assembled by `ask_delete_invalid_bookmarks`: one line per
invalid bookmark, bounded to the first 10 (`[:10]`), plus the overflow
count when more remain. -/
def ask_delete_invalid_summary (paths : List String) : Summary where
  listed := (paths.take 10).map (fun p => "- Location: " ++ p)
  overflow := if 10 < paths.length then some (paths.length - 10) else none

/-- Summary assembled by `remove_old_bookmarks` before its confirmation:
same bound to the first 10 plus the overflow count. -/
def remove_old_summary (paths : List String) : Summary where
  listed := (paths.take 10).map (fun p => "- Location: " ++ p)
  overflow := if 10 < paths.length then some (paths.length - 10) else none

/-- Summary assembled per duplicate group by `find_duplicate_bookmarks`:
one line per group member, with no bound and no overflow note. -/
def duplicate_group_summary (paths : List String) : Summary where
  listed := paths.map (fun p => "- Location: " ++ p)
  overflow := none

theorem mem_foldl_insertKey (k : String × Option String) :
    ∀ (links : List LinkData) (acc : List (String × Option String)),
      (k ∈ links.foldl
          (fun acc d => if dupKey d ∈ acc then acc else acc ++ [dupKey d]) acc
        ↔ k ∈ acc ∨ ∃ d ∈ links, dupKey d = k) := by
  intro links
  induction links with
  | nil => intro acc; simp
  | cons d rest ih =>
      intro acc
      rw [List.foldl_cons]
      by_cases hm : dupKey d ∈ acc
      · rw [if_pos hm, ih]
        constructor
        · rintro (h | ⟨d2, h2, hk⟩)
          · exact Or.inl h
          · exact Or.inr ⟨d2, List.mem_cons_of_mem d h2, hk⟩
        · rintro (h | ⟨d2, h2, hk⟩)
          · exact Or.inl h
          · rcases List.mem_cons.mp h2 with h3 | h3
            · rw [h3] at hk
              exact Or.inl (hk ▸ hm)
            · exact Or.inr ⟨d2, h3, hk⟩
      · rw [if_neg hm, ih]
        constructor
        · rintro (h | ⟨d2, h2, hk⟩)
          · rcases List.mem_append.mp h with h3 | h3
            · exact Or.inl h3
            · have hkd : k = dupKey d := List.mem_singleton.mp h3
              exact Or.inr ⟨d, List.mem_cons_self d rest, hkd.symm⟩
          · exact Or.inr ⟨d2, List.mem_cons_of_mem d h2, hk⟩
        · rintro (h | ⟨d2, h2, hk⟩)
          · exact Or.inl (List.mem_append.mpr (Or.inl h))
          · rcases List.mem_cons.mp h2 with h3 | h3
            · rw [h3] at hk
              exact Or.inl
                (List.mem_append.mpr (Or.inr (List.mem_singleton.mpr hk.symm)))
            · exact Or.inr ⟨d2, h3, hk⟩

theorem mem_dedupKeys (links : List LinkData) (k : String × Option String) :
    k ∈ dedupKeys links ↔ ∃ d ∈ links, dupKey d = k := by
  unfold dedupKeys
  rw [mem_foldl_insertKey]
  simp

theorem mem_find_duplicate_groups (links : List LinkData)
    (kg : (String × Option String) × List LinkData) :
    kg ∈ find_duplicate_groups links ↔
      (∃ d ∈ links, dupKey d = kg.1) ∧
      kg.2 = links.filter (fun d => dupKey d = kg.1) ∧
      1 < (links.filter (fun d => dupKey d = kg.1)).length := by
  unfold find_duplicate_groups
  rw [List.mem_filterMap]
  constructor
  · rintro ⟨k, hk, hf⟩
    by_cases hl : 1 < (links.filter (fun d => dupKey d = k)).length
    · rw [if_pos hl] at hf
      rw [Option.some.injEq] at hf
      rw [← hf]
      exact ⟨(mem_dedupKeys links k).mp hk, rfl, hl⟩
    · rw [if_neg hl] at hf
      exact absurd hf (by simp)
  · rintro ⟨hex, hg, hlen⟩
    refine ⟨kg.1, (mem_dedupKeys links kg.1).mpr hex, ?_⟩
    rw [if_pos hlen, ← hg]

theorem filter_head_eq_find (p : LinkData → Bool) :
    ∀ l : List LinkData, (l.filter p).head? = l.find? p := by
  intro l
  induction l with
  | nil => rfl
  | cons a l ih =>
      by_cases h : p a
      · simp [List.filter_cons, List.find?_cons, h]
      · simp [List.filter_cons, List.find?_cons, h, ih]

theorem head_survives_confirm (t : Forest) (g : List LinkData) (h : LinkData)
    (hnd : ((collectLinks t).map LinkData.id).Nodup)
    (hsub : g.Sublist (collectLinks t))
    (hhead : g.head? = some h) :
    h ∈ collectLinks (confirm_duplicate_group true t g) := by
  cases g with
  | nil => simp at hhead
  | cons a gs =>
      have ha : a = h := by simpa using hhead
      subst ha
      unfold confirm_duplicate_group
      rw [if_pos rfl, collectLinks_removeAll]
      apply List.mem_filter.mpr
      refine ⟨hsub.subset (List.mem_cons_self a gs), ?_⟩
      have hnd2 : ((a :: gs).map LinkData.id).Nodup :=
        (hsub.map LinkData.id).nodup hnd
      have hni : a.id ∉ gs.map LinkData.id := by
        rw [List.map_cons, List.nodup_cons] at hnd2
        exact hnd2.1
      simpa using hni

/-- C3: the duplicate resolver groups every link of the document by the
pair (trimmed display text, URL exactly as written), irrespective of
folder location. Every reported group consists of exactly the document's
links with that key in document order, has more than one member, and its
head is the first such link encountered in document-order traversal;
confirming a group deletes exactly its non-first members, and (when tag
identities in the document are distinct, as they are for parsed tags)
the first member survives. Conversely, every key shared by more than one
link is reported. -/
theorem find_duplicates_spec :
    (∀ (t : Forest) (kg : (String × Option String) × List LinkData),
        kg ∈ find_duplicate_groups (collectLinks t) →
        kg.2 = (collectLinks t).filter (fun d => dupKey d = kg.1) ∧
        1 < kg.2.length ∧
        kg.2.head? = (collectLinks t).find? (fun d => dupKey d = kg.1) ∧
        collectLinks (confirm_duplicate_group true t kg.2)
          = (collectLinks t).filter
              (fun d => d.id ∉ (kg.2.drop 1).map LinkData.id)) ∧
    (∀ (t : Forest) (k : String × Option String),
        1 < ((collectLinks t).filter (fun d => dupKey d = k)).length →
        (k, (collectLinks t).filter (fun d => dupKey d = k))
          ∈ find_duplicate_groups (collectLinks t)) ∧
    (∀ (t : Forest) (kg : (String × Option String) × List LinkData)
        (h : LinkData),
        ((collectLinks t).map LinkData.id).Nodup →
        kg ∈ find_duplicate_groups (collectLinks t) →
        kg.2.head? = some h →
        h ∈ collectLinks (confirm_duplicate_group true t kg.2)) := by
  refine ⟨?_, ?_, ?_⟩
  · intro t kg hmem
    obtain ⟨hex, hg, hlen⟩ := (mem_find_duplicate_groups _ kg).mp hmem
    refine ⟨hg, ?_, ?_, ?_⟩
    · rw [hg]
      exact hlen
    · rw [hg]
      exact filter_head_eq_find _ (collectLinks t)
    · unfold confirm_duplicate_group
      rw [if_pos rfl]
      exact collectLinks_removeAll _ t
  · intro t k hlen
    have hne : (collectLinks t).filter (fun d => dupKey d = k) ≠ [] := by
      intro hnil
      rw [hnil] at hlen
      simp at hlen
    obtain ⟨x, hx⟩ := List.exists_mem_of_ne_nil _ hne
    have hx2 := List.mem_filter.mp hx
    have hdx : dupKey x = k := by simpa using hx2.2
    exact (mem_find_duplicate_groups _ _).mpr ⟨⟨x, hx2.1, hdx⟩, rfl, hlen⟩
  · intro t kg h hnd hmem hhead
    obtain ⟨hex, hg, hlen⟩ := (mem_find_duplicate_groups _ kg).mp hmem
    exact head_survives_confirm t kg.2 h hnd
      (hg ▸ List.filter_sublist (collectLinks t)) hhead

/-- A document where the key ("Repo", same URL) occurs in folders "A",
"B" and "C" in that order, and one unrelated link. -/
def tdup : Forest :=
  ofList [Node.h3 "A",
    Node.dl (ofList [Node.link ⟨1, "Repo", some "http://x.test/404", none⟩]),
    Node.h3 "B",
    Node.dl (ofList [Node.link ⟨2, " Repo ", some "http://x.test/404", none⟩]),
    Node.h3 "C",
    Node.dl (ofList [Node.link ⟨3, "Repo", some "http://x.test/404", none⟩,
      Node.link ⟨4, "Other", some "http://y.test", none⟩])]

def kgdup : (String × Option String) × List LinkData :=
  (("Repo", some "http://x.test/404"),
   [⟨1, "Repo", some "http://x.test/404", none⟩,
    ⟨2, " Repo ", some "http://x.test/404", none⟩,
    ⟨3, "Repo", some "http://x.test/404", none⟩])

theorem find_duplicates_spec_witness :
    (kgdup ∈ find_duplicate_groups (collectLinks tdup) ∧
      ((collectLinks tdup).map LinkData.id).Nodup ∧
      kgdup.2.head? = some (⟨1, "Repo", some "http://x.test/404", none⟩ : LinkData)) ∧
    (kgdup.2 = (collectLinks tdup).filter (fun d => dupKey d = kgdup.1) ∧
      1 < kgdup.2.length ∧
      kgdup.2.head? = (collectLinks tdup).find? (fun d => dupKey d = kgdup.1) ∧
      collectLinks (confirm_duplicate_group true tdup kgdup.2)
        = (collectLinks tdup).filter
            (fun d => d.id ∉ (kgdup.2.drop 1).map LinkData.id)) ∧
    ((("Repo", some "http://x.test/404") : String × Option String),
        (collectLinks tdup).filter
          (fun d => dupKey d = (("Repo", some "http://x.test/404") : String × Option String)))
      ∈ find_duplicate_groups (collectLinks tdup) ∧
    (⟨1, "Repo", some "http://x.test/404", none⟩ : LinkData)
      ∈ collectLinks (confirm_duplicate_group true tdup kgdup.2) :=
  ⟨⟨by decide, by decide, rfl⟩,
    find_duplicates_spec.1 tdup kgdup (by decide),
    find_duplicates_spec.2.1 tdup ("Repo", some "http://x.test/404") (by decide),
    find_duplicates_spec.2.2 tdup kgdup ⟨1, "Repo", some "http://x.test/404", none⟩
      (by decide) (by decide) rfl⟩

def paths11 : List String :=
  ["p1", "p2", "p3", "p4", "p5", "p6", "p7", "p8", "p9", "p10", "p11"]

/-- C5 counterexample: a duplicate group with 11 members is summarized
with 11 "- Location:" lines — the duplicate-group confirmation path does
not bound its summary to the first 10 items plus an overflow count, so the
bound does not apply to every removal path as the claim states. -/
theorem duplicate_summary_unbounded_cex :
    (duplicate_group_summary paths11).listed.length = 11 ∧
      ¬ (duplicate_group_summary paths11).listed.length ≤ 10 :=
  ⟨rfl, by decide⟩

/-- C5 amended: the 10-item bound with overflow count applies to the
invalid-bookmarks and age-expired confirmation summaries; the
duplicate-group confirmation lists every member of its group, unbounded.
No removal path deletes anything when the answer is no. -/
theorem confirmation_summary_amended :
    (∀ paths : List String,
        (ask_delete_invalid_summary paths).listed.length ≤ 10 ∧
        (remove_old_summary paths).listed.length ≤ 10 ∧
        (duplicate_group_summary paths).listed.length = paths.length) ∧
    (∀ (t : Forest) (inv : List (LinkData × String)),
        ask_delete_invalid_bookmarks_m false t inv = t) ∧
    (∀ (t : Forest) (g : List LinkData), confirm_duplicate_group false t g = t) ∧
    (∀ (now : Int) (s : MgrState), (remove_old_bookmarks_m now false s).2 = s) := by
  refine ⟨?_, ?_, ?_, ?_⟩
  · intro paths
    refine ⟨?_, ?_, ?_⟩
    · simp only [ask_delete_invalid_summary, List.length_map, List.length_take]
      omega
    · simp only [remove_old_summary, List.length_map, List.length_take]
      omega
    · simp [duplicate_group_summary]
  · intro t inv
    simp [ask_delete_invalid_bookmarks_m]
  · intro t g
    simp [confirm_duplicate_group]
  · intro now s
    obtain ⟨b, soup, inv⟩ := s
    cases soup with
    | none => rfl
    | some t =>
        simp only [remove_old_bookmarks_m]
        cases remove_old_collect now (collectLinks t) with
        | error e => rfl
        | ok l =>
            cases l with
            | nil => rfl
            | cons d ds => simp

/-! ## Interleaved execution of the checker's worker pool

The workers of `check_bookmark_validity` update the closed-over counters
(`nonlocal checked, valid, invalid`) without holding `self.lock`: each
`x += 1` compiles to a read of the shared variable followed by a write of
the incremented value, and the interpreter may switch threads between the
two. The machine below makes exactly those two steps explicit, while
`Queue.get`, `Queue.task_done` and the list append stay atomic (they are
internally locked). A schedule is the sequence of worker indices chosen
by the scheduler; `queue.join()` returns once `unfinished` (the count of
items put minus items acknowledged by `task_done`) reaches zero. -/

/-- Program counter of one worker thread, one position per statement of
the `worker` loop body, with the two non-atomic counter increments split
into their load and store halves. -/
inductive WPC where
  | checkQueue
  | getItem
  | probeItem
  | loadCtr
  | storeCtr
  | loadChecked
  | storeChecked
  | ackDone
  | halted
deriving DecidableEq, Repr

/-- Local state of one worker: program counter, the dequeued item, the
probe outcome, and the register holding a read counter value. -/
structure WState where
  pc : WPC
  item : Option (LinkData × String)
  outcome : Option ProbeOutcome
  reg : Nat
deriving Repr

/-- Shared state of one checker run: the work queue, the `task_done`
bookkeeping of `queue.join()`, the three counters, the invalid list and
the worker pool. -/
structure SysState where
  queue : List (LinkData × String)
  unfinished : Nat
  checked : Nat
  valid : Nat
  invalid : Nat
  invalid_bookmarks : List (LinkData × String)
  workers : List WState
deriving Repr

/-- One step of one worker, following the statements of `worker`:
`while not queue.empty()` (halt when empty), `queue.get()` (blocks when
the queue was emptied in between, so no step is possible), the probe with
its absorbed exceptions, the load and store halves of the class counter
increment (the invalid branch also appends to the shared list, which the
interpreter performs atomically), the load and store halves of
`checked += 1`, and `queue.task_done()`. -/
def workerStep (net : String → ProbeOutcome) (sys : SysState) (w : WState) :
    SysState × WState :=
  match w.pc with
  | WPC.checkQueue =>
      if sys.queue.isEmpty then (sys, { w with pc := WPC.halted })
      else (sys, { w with pc := WPC.getItem })
  | WPC.getItem =>
      match sys.queue with
      | [] => (sys, w)
      | it :: rest =>
          ({ sys with queue := rest },
           { w with item := some it, pc := WPC.probeItem })
  | WPC.probeItem =>
      match w.item with
      | none => (sys, w)
      | some it =>
          (sys,
           { w with outcome := some (probe_of net it.1.href), pc := WPC.loadCtr })
  | WPC.loadCtr =>
      match w.outcome with
      | none => (sys, w)
      | some oc =>
          match classify_probe oc with
          | Classification.valid =>
              (sys, { w with reg := sys.valid, pc := WPC.storeCtr })
          | Classification.invalid =>
              (sys, { w with reg := sys.invalid, pc := WPC.storeCtr })
  | WPC.storeCtr =>
      match w.outcome, w.item with
      | some oc, some it =>
          match classify_probe oc with
          | Classification.valid =>
              ({ sys with valid := w.reg + 1 }, { w with pc := WPC.loadChecked })
          | Classification.invalid =>
              ({ sys with
                  invalid := w.reg + 1,
                  invalid_bookmarks := sys.invalid_bookmarks ++ [it] },
               { w with pc := WPC.loadChecked })
      | _, _ => (sys, w)
  | WPC.loadChecked =>
      (sys, { w with reg := sys.checked, pc := WPC.storeChecked })
  | WPC.storeChecked =>
      ({ sys with checked := w.reg + 1 }, { w with pc := WPC.ackDone })
  | WPC.ackDone =>
      ({ sys with unfinished := sys.unfinished - 1 },
       { w with pc := WPC.checkQueue })
  | WPC.halted => (sys, w)

/-- Let the worker chosen by the scheduler take its next step. -/
def schedStep (net : String → ProbeOutcome) (sys : SysState) (i : Nat) :
    SysState :=
  match sys.workers.get? i with
  | none => sys
  | some w =>
      let p := workerStep net sys w
      { p.1 with workers := p.1.workers.set i p.2 }

/-- Run a whole schedule of worker choices. -/
def execSched (net : String → ProbeOutcome) (sched : List Nat)
    (sys : SysState) : SysState :=
  sched.foldl (schedStep net) sys

def initWorker : WState := ⟨WPC.checkQueue, none, none, 0⟩

/-- State at dispatch time: every collected bookmark queued (each `put`
incrementing the join counter), counters zeroed, `nWorkers` fresh
workers. -/
def initSys (items : List (LinkData × String)) (nWorkers : Nat) : SysState :=
  ⟨items, items.length, 0, 0, 0, [], List.replicate nWorkers initWorker⟩

/-- The run is complete: `queue.join()` has returned (all dispatched items
acknowledged) and every worker has left its loop. -/
def runCompleteB (sys : SysState) : Bool :=
  sys.unfinished == 0 && sys.workers.all (fun w => w.pc == WPC.halted)

/-- Two reachable links probed by two workers. -/
def cexItems : List (LinkData × String) :=
  [(⟨1, "a", some "http://a.test", none⟩, ""),
   (⟨2, "b", some "http://b.test", none⟩, "")]

/-- The strictly alternating schedule: both workers dequeue, probe, then
interleave the load and store halves of `valid += 1` and of
`checked += 1`, losing one update of each. -/
def cexSched : List Nat :=
  [0, 1, 0, 1, 0, 1, 0, 1, 0, 1, 0, 1, 0, 1, 0, 1, 0, 1]

/-- C1 (code_bug evidence): an interleaving of two workers over two links
that completes — the queue is joined and both workers finished — yet ends
with `checked = 1` and `valid = 1` for 2 links, because the unsynchronized
`nonlocal` increments lose one update of `valid` and one of `checked`.
The claim's aggregate equations `checked == n` and
`checked == valid + invalid` therefore do not hold for every interleaving
of the code's workers, although the spec requires them. -/
theorem lost_update_execution :
    runCompleteB (execSched netAllOk cexSched (initSys cexItems 2)) = true ∧
    (execSched netAllOk cexSched (initSys cexItems 2)).checked = 1 ∧
    (execSched netAllOk cexSched (initSys cexItems 2)).valid = 1 ∧
    (execSched netAllOk cexSched (initSys cexItems 2)).invalid = 0 ∧
    cexItems.length = 2 :=
  ⟨rfl, rfl, rfl, rfl, rfl⟩

/-- With no interleaving inside the increments (a single worker draining
the queue), the same machine produces the expected aggregate counts. -/
example :
    runCompleteB (execSched netAllOk (List.replicate 17 0) (initSys cexItems 1))
      = true ∧
    (execSched netAllOk (List.replicate 17 0) (initSys cexItems 1)).checked = 2 ∧
    (execSched netAllOk (List.replicate 17 0) (initSys cexItems 1)).valid = 2 :=
  ⟨rfl, rfl, rfl⟩

end BookmarkMgr
